import Mathlib

/-!
Shallow embedding of the decorator module of `adonisjs-girouette`
(`src/decorators/*`, the file holding `GroupMiddleware`, `RouteMiddleware`
and `ResourceMiddleware`).

Modelling choices, each traceable to the source:

* `OneOrMore M` mirrors the TypeScript `OneOrMore<MiddlewareFn |
  ParsedNamedMiddleware>` argument type: either a single middleware spec
  (`Sum.inl`) or an array of specs (`Sum.inr`).  Middleware specs themselves
  are opaque to the decorators, so they are a type parameter `M`.
* The per-class routes object stored under `REFLECT_ROUTES_KEY` is a JS
  object mapping method names to `{ middleware?: OneOrMore[] }`.  We model it
  as an association list `Routes M` in key insertion order; the value is the
  optional `middleware` field (`none` = field absent).  `getProp`/`setProp`
  are JS property read / assignment (assignment keeps the key position,
  appends a fresh key at the end).
* A metadata slot is `Option`-valued: `Reflect.getMetadata ... || {}` reads
  `st.getD []`, and `Reflect.defineMetadata` always writes, so every
  decorator returns `some` of the new content.
* The shared statement sequence
  `if (!routes[key]) routes[key] = {};`
  `if (!routes[key].middleware) routes[key].middleware = [middleware];`
  `else routes[key].middleware.push(middleware)`
  is `applyMW`.  An empty JS array is truthy, so `some []` takes the `push`
  branch, which coincides with `[] ++ [mw]`.
* `ResourceMiddleware`'s `actions` argument has type
  `ResourceActionNames | '*' | ResourceActionNames[]`: a single string
  (action name or the wildcard) or an array of strings; `ActionsArg` is the
  corresponding sum.
-/

namespace Girouette

/-- `OneOrMore<MiddlewareFn | ParsedNamedMiddleware>`: a single middleware
spec or an array of middleware specs. -/
abbrev OneOrMore (M : Type) : Type := M ⊕ List M

/-- The routes object stored under `REFLECT_ROUTES_KEY`: method name →
optional `middleware` field, keys in insertion order. -/
abbrev Routes (M : Type) : Type := List (String × Option (List (OneOrMore M)))

/-- JS property read `routes[key]`: `none` when the key is absent. -/
def getProp {M : Type} (rs : Routes M) (k : String) :
    Option (Option (List (OneOrMore M))) :=
  match rs with
  | [] => none
  | p :: rest => if p.1 = k then some p.2 else getProp rest k

/-- JS property assignment `routes[key] = v`: overwrite in place, or append
the key at the end when absent. -/
def setProp {M : Type} (rs : Routes M) (k : String)
    (v : Option (List (OneOrMore M))) : Routes M :=
  match rs with
  | [] => [(k, v)]
  | p :: rest => if p.1 = k then (k, v) :: rest else p :: setProp rest k v

/-- The merge step shared by `GroupMiddleware` and `RouteMiddleware`:
create the entry when absent, then set or push onto its `middleware` list. -/
def applyMW {M : Type} (rs : Routes M) (k : String) (mw : OneOrMore M) :
    Routes M :=
  match getProp rs k with
  | none => setProp rs k (some [mw])
  | some none => setProp rs k (some [mw])
  | some (some l) => setProp rs k (some (l ++ [mw]))

/-- The loop body of `GroupMiddleware`: annotate the own prototype property
`p` (name paired with whether its value is a function) unless it is the
constructor or not a function. -/
def groupStep {M : Type} (middleware : OneOrMore M) (rs : Routes M)
    (p : String × Bool) : Routes M :=
  if p.1 ≠ "constructor" ∧ p.2 = true then applyMW rs p.1 middleware else rs

/-- `GroupMiddleware(middleware)` applied to a class whose prototype has own
properties `proto` (name paired with whether its value is a function).
Iterates `Object.getOwnPropertyNames(target.prototype)`, skipping
`constructor` and non-functions, and unconditionally writes the result
back with `Reflect.defineMetadata`. -/
def GroupMiddleware {M : Type} (middleware : OneOrMore M)
    (proto : List (String × Bool)) (st : Option (Routes M)) :
    Option (Routes M) :=
  some (proto.foldl (groupStep middleware) (st.getD []))

/-- `RouteMiddleware(middleware)` applied at method `key` of a class whose
metadata slot holds `st`. -/
def RouteMiddleware {M : Type} (middleware : OneOrMore M) (key : String)
    (st : Option (Routes M)) : Option (Routes M) :=
  some (applyMW (st.getD []) key middleware)

/-- The `actions` argument of `ResourceMiddleware`: a single string (an
action name, or the `*` wildcard) or an array of action names. -/
abbrev ActionsArg : Type := String ⊕ List String

/-- One record pushed by `ResourceMiddleware`: `{ actions, middleware }`. -/
structure ResourceRecord (M : Type) where
  actions : ActionsArg
  middleware : OneOrMore M
deriving DecidableEq

/-- `ResourceMiddleware(actions, middleware)`: read the list under
`REFLECT_RESOURCE_MIDDLEWARE_KEY` (defaulting to `[]`), push
`{ actions, middleware }`, write it back. -/
def ResourceMiddleware {M : Type} (actions : ActionsArg)
    (middleware : OneOrMore M) (st : Option (List (ResourceRecord M))) :
    Option (List (ResourceRecord M)) :=
  some (st.getD [] ++ [⟨actions, middleware⟩])

/-- The middleware list recorded for method `k` (empty when the key or the
field is absent). -/
def mwOf {M : Type} (rs : Routes M) (k : String) : List (OneOrMore M) :=
  match getProp rs k with
  | some (some l) => l
  | _ => []

/-- `mwOf` read through a metadata slot. -/
def mwOfSt {M : Type} (st : Option (Routes M)) (k : String) :
    List (OneOrMore M) :=
  mwOf (st.getD []) k

/-- `getProp` read through a metadata slot. -/
def getPropSt {M : Type} (st : Option (Routes M)) (k : String) :
    Option (Option (List (OneOrMore M))) :=
  getProp (st.getD []) k

/-! ### Basic lemmas about the routes object -/

theorem getProp_setProp_self {M : Type} (rs : Routes M) (k : String)
    (v : Option (List (OneOrMore M))) :
    getProp (setProp rs k v) k = some v := by
  induction rs with
  | nil => simp [setProp, getProp]
  | cons p rest ih =>
    by_cases h : p.1 = k
    · simp [setProp, getProp, h]
    · simp [setProp, getProp, h, ih]

theorem getProp_setProp_ne {M : Type} (rs : Routes M) (k k' : String)
    (v : Option (List (OneOrMore M))) (h : k' ≠ k) :
    getProp (setProp rs k v) k' = getProp rs k' := by
  have h2 : ¬(k = k') := fun hh => h hh.symm
  induction rs with
  | nil => simp [setProp, getProp, h2]
  | cons p rest ih =>
    by_cases hp : p.1 = k
    · have hp' : ¬(p.1 = k') := by rw [hp]; exact h2
      simp [setProp, getProp, hp, hp', h2]
    · simp [setProp, getProp, hp, ih]

theorem mwOf_applyMW_self {M : Type} (rs : Routes M) (k : String)
    (mw : OneOrMore M) :
    mwOf (applyMW rs k mw) k = mwOf rs k ++ [mw] := by
  unfold applyMW mwOf
  cases h : getProp rs k with
  | none => simp [h, getProp_setProp_self]
  | some v =>
    cases v with
    | none => simp [h, getProp_setProp_self]
    | some l => simp [h, getProp_setProp_self]

theorem getProp_applyMW_ne {M : Type} (rs : Routes M) (k k' : String)
    (mw : OneOrMore M) (h : k' ≠ k) :
    getProp (applyMW rs k mw) k' = getProp rs k' := by
  unfold applyMW
  cases hg : getProp rs k with
  | none => simp [getProp_setProp_ne _ _ _ _ h]
  | some v =>
    cases v with
    | none => simp [getProp_setProp_ne _ _ _ _ h]
    | some l => simp [getProp_setProp_ne _ _ _ _ h]

theorem mwOf_applyMW_ne {M : Type} (rs : Routes M) (k k' : String)
    (mw : OneOrMore M) (h : k' ≠ k) :
    mwOf (applyMW rs k mw) k' = mwOf rs k' := by
  unfold mwOf
  rw [getProp_applyMW_ne _ _ _ _ h]

theorem mwOf_applyMW_pref {M : Type} (rs : Routes M) (k k' : String)
    (mw : OneOrMore M) :
    mwOf rs k' <+: mwOf (applyMW rs k mw) k' := by
  by_cases h : k' = k
  · subst h
    rw [mwOf_applyMW_self]
    exact ⟨[mw], rfl⟩
  · rw [mwOf_applyMW_ne _ _ _ _ h]

/-! ### Lemmas about the `GroupMiddleware` fold -/

theorem groupFold_getProp_frame {M : Type} (mw : OneOrMore M)
    (proto : List (String × Bool)) (rs : Routes M) (k : String)
    (h : k = "constructor" ∨ (k, true) ∉ proto) :
    getProp (proto.foldl (groupStep mw) rs) k = getProp rs k := by
  induction proto generalizing rs with
  | nil => rfl
  | cons p rest ih =>
    have hrest : k = "constructor" ∨ (k, true) ∉ rest := by
      rcases h with h | h
      · exact Or.inl h
      · exact Or.inr (fun hm => h (List.mem_cons_of_mem _ hm))
    rw [List.foldl_cons, ih _ hrest]
    unfold groupStep
    by_cases hc : p.1 ≠ "constructor" ∧ p.2 = true
    · have hne : k ≠ p.1 := by
        intro hkp
        rcases h with h | h
        · exact hc.1 (hkp ▸ h.symm ▸ rfl)
        · exact h (by
            have : p = (k, true) := by
              rcases p with ⟨a, b⟩
              simp only at hkp
              rw [Prod.mk.injEq]
              exact ⟨hkp.symm, by simpa using hc.2⟩
            rw [← this]
            exact List.mem_cons_self _ _)
      rw [if_pos hc]
      exact getProp_applyMW_ne _ _ _ _ hne
    · rw [if_neg hc]

theorem groupFold_mwOf_frame {M : Type} (mw : OneOrMore M)
    (proto : List (String × Bool)) (rs : Routes M) (k : String)
    (h : k = "constructor" ∨ (k, true) ∉ proto) :
    mwOf (proto.foldl (groupStep mw) rs) k = mwOf rs k := by
  unfold mwOf
  rw [groupFold_getProp_frame _ _ _ _ h]

theorem groupFold_mwOf_target {M : Type} (mw : OneOrMore M)
    (proto : List (String × Bool)) (rs : Routes M) (k : String)
    (hnd : (proto.map Prod.fst).Nodup) (hk : (k, true) ∈ proto)
    (hkc : k ≠ "constructor") :
    mwOf (proto.foldl (groupStep mw) rs) k = mwOf rs k ++ [mw] := by
  induction proto generalizing rs with
  | nil => exact absurd hk (List.not_mem_nil _)
  | cons p rest ih =>
    rw [List.map_cons, List.nodup_cons] at hnd
    rw [List.foldl_cons]
    rcases List.mem_cons.mp hk with hk1 | hk2
    · have hknotin : (k, true) ∉ rest := by
        intro hm
        exact hnd.1 (by
          rw [← hk1]
          exact List.mem_map_of_mem Prod.fst hm)
      rw [groupFold_mwOf_frame _ _ _ _ (Or.inr hknotin), ← hk1]
      unfold groupStep
      have hcond : (k, true).1 ≠ "constructor" ∧ (k, true).2 = true :=
        ⟨hkc, rfl⟩
      rw [if_pos hcond]
      exact mwOf_applyMW_self _ _ _
    · have hpk : p.1 ≠ k := by
        intro hpk
        exact hnd.1 (hpk ▸ List.mem_map_of_mem Prod.fst hk2)
      have hstep : mwOf (groupStep mw rs p) k = mwOf rs k := by
        unfold groupStep
        by_cases hc : p.1 ≠ "constructor" ∧ p.2 = true
        · rw [if_pos hc]
          exact mwOf_applyMW_ne _ _ _ _ (fun hh => hpk hh.symm)
        · rw [if_neg hc]
      rw [ih _ hnd.2 hk2, hstep]

theorem groupFold_mwOf_pref {M : Type} (mw : OneOrMore M)
    (proto : List (String × Bool)) (rs : Routes M) (k : String) :
    mwOf rs k <+: mwOf (proto.foldl (groupStep mw) rs) k := by
  induction proto generalizing rs with
  | nil => exact ⟨[], List.append_nil _⟩
  | cons p rest ih =>
    rw [List.foldl_cons]
    have hstep : mwOf rs k <+: mwOf (groupStep mw rs p) k := by
      unfold groupStep
      by_cases hc : p.1 ≠ "constructor" ∧ p.2 = true
      · rw [if_pos hc]
        exact mwOf_applyMW_pref _ _ _ _
      · rw [if_neg hc]
    exact hstep.trans (ih _)

theorem groupFold_id {M : Type} (S : OneOrMore M)
    (proto : List (String × Bool))
    (h : ∀ p ∈ proto, p.1 = "constructor" ∨ p.2 = false) (rs : Routes M) :
    proto.foldl (groupStep S) rs = rs := by
  induction proto generalizing rs with
  | nil => rfl
  | cons p rest ih =>
    have hp := h p (List.mem_cons_self _ _)
    have hstep : groupStep S rs p = rs := by
      unfold groupStep
      rw [if_neg]
      intro hc
      rcases hp with hp | hp
      · exact hc.1 hp
      · rw [hp] at hc
        exact absurd hc.2 (by simp)
    rw [List.foldl_cons, hstep]
    exact ih (fun q hq => h q (List.mem_cons_of_mem _ hq)) rs

/-! ### Claim theorems -/

/-- Claim C1: applying `GroupMiddleware` with spec `S` gives every own
non-constructor method `k` of the prototype a middleware list equal to its
previous list with `S` appended as the last group (the list `[S]` is created
when no entry existed, since the absent case reads as `[]`), and the
metadata entry for the key `constructor` is untouched (in particular never
created). -/
theorem C1_group_appends_to_each_method {M : Type} (S : OneOrMore M)
    (proto : List (String × Bool)) (st : Option (Routes M)) (k : String)
    (hnd : (proto.map Prod.fst).Nodup) (hk : (k, true) ∈ proto)
    (hkc : k ≠ "constructor") :
    mwOfSt (GroupMiddleware S proto st) k = mwOfSt st k ++ [S] ∧
    getPropSt (GroupMiddleware S proto st) "constructor" =
      getPropSt st "constructor" := by
  constructor
  · unfold mwOfSt GroupMiddleware
    simp only [Option.getD_some]
    exact groupFold_mwOf_target _ _ _ _ hnd hk hkc
  · unfold getPropSt GroupMiddleware
    simp only [Option.getD_some]
    exact groupFold_getProp_frame _ _ _ _ (Or.inl rfl)

/-- Witness for C1 at a concrete class with methods `constructor` and
`index` and no prior metadata. -/
theorem C1_witness :
    (([(("constructor" : String), true), ("index", true)].map
        Prod.fst).Nodup ∧
      (("index" : String), true) ∈
        [(("constructor" : String), true), ("index", true)] ∧
      ("index" : String) ≠ "constructor") ∧
    (mwOfSt (GroupMiddleware (Sum.inl (5 : Nat))
        [("constructor", true), ("index", true)] none) "index" =
        mwOfSt (none : Option (Routes Nat)) "index" ++ [Sum.inl 5] ∧
      getPropSt (GroupMiddleware (Sum.inl (5 : Nat))
        [("constructor", true), ("index", true)] none) "constructor" =
        getPropSt (none : Option (Routes Nat)) "constructor") :=
  ⟨⟨by decide, by decide, by decide⟩,
    C1_group_appends_to_each_method (Sum.inl 5)
      [("constructor", true), ("index", true)] none "index"
      (by decide) (by decide) (by decide)⟩

/-- Claim C2: applying `RouteMiddleware` to method `m` with `S1` and then
with `S2` appends `S1` then `S2` in exactly that order after the prior
list, and every other method key's entry is unchanged. -/
theorem C2_route_twice {M : Type} (S1 S2 : OneOrMore M) (m : String)
    (st : Option (Routes M)) :
    mwOfSt (RouteMiddleware S2 m (RouteMiddleware S1 m st)) m =
      mwOfSt st m ++ [S1, S2] ∧
    ∀ k, k ≠ m →
      getPropSt (RouteMiddleware S2 m (RouteMiddleware S1 m st)) k =
        getPropSt st k := by
  constructor
  · unfold mwOfSt RouteMiddleware
    simp only [Option.getD_some]
    rw [mwOf_applyMW_self, mwOf_applyMW_self, List.append_assoc]
    rfl
  · intro k hk
    unfold getPropSt RouteMiddleware
    simp only [Option.getD_some]
    rw [getProp_applyMW_ne _ _ _ _ hk, getProp_applyMW_ne _ _ _ _ hk]

/-- Witness for C2 at method `show` with specs `1` then `2` and sibling
key `edit`. -/
theorem C2_witness :
    (mwOfSt (RouteMiddleware (Sum.inl 2) "show"
        (RouteMiddleware (Sum.inl (1 : Nat)) "show" none)) "show" =
      mwOfSt (none : Option (Routes Nat)) "show" ++ [Sum.inl 1, Sum.inl 2]) ∧
    ("edit" : String) ≠ "show" ∧
    getPropSt (RouteMiddleware (Sum.inl 2) "show"
        (RouteMiddleware (Sum.inl (1 : Nat)) "show" none)) "edit" =
      getPropSt (none : Option (Routes Nat)) "edit" :=
  ⟨(C2_route_twice (Sum.inl 1) (Sum.inl 2) "show" none).1, by decide,
    (C2_route_twice (Sum.inl 1) (Sum.inl 2) "show" none).2 "edit" (by decide)⟩

/-- Claim C3: with no prior metadata, `RouteMiddleware` on method `m` with
`Sr` followed by `GroupMiddleware` with `Sg` (the order decorators
evaluate) leaves `m` with middleware list exactly `[Sr, Sg]`: the group
appends after the per-method entry. -/
theorem C3_route_then_group {M : Type} (Sr Sg : OneOrMore M) (m : String)
    (proto : List (String × Bool)) (hnd : (proto.map Prod.fst).Nodup)
    (hm : (m, true) ∈ proto) (hmc : m ≠ "constructor") :
    mwOfSt (GroupMiddleware Sg proto (RouteMiddleware Sr m none)) m =
      [Sr, Sg] := by
  unfold mwOfSt GroupMiddleware
  simp only [Option.getD_some]
  rw [groupFold_mwOf_target _ _ _ _ hnd hm hmc]
  unfold RouteMiddleware
  simp only [Option.getD_some, Option.getD_none]
  rw [mwOf_applyMW_self]
  simp [mwOf, getProp]

/-- Witness for C3 at a concrete class with method `show`. -/
theorem C3_witness :
    (([(("constructor" : String), true), ("show", true)].map
        Prod.fst).Nodup ∧
      (("show" : String), true) ∈
        [(("constructor" : String), true), ("show", true)] ∧
      ("show" : String) ≠ "constructor") ∧
    mwOfSt (GroupMiddleware (Sum.inl 2)
        [("constructor", true), ("show", true)]
        (RouteMiddleware (Sum.inl (1 : Nat)) "show" none)) "show" =
      [Sum.inl 1, Sum.inl 2] :=
  ⟨⟨by decide, by decide, by decide⟩,
    C3_route_then_group (Sum.inl 1) (Sum.inl 2) "show"
      [("constructor", true), ("show", true)]
      (by decide) (by decide) (by decide)⟩

/-- Claim C4: with no prior resource metadata, `ResourceMiddleware` with
`(['store'], S1)` and then `(['store','update'], S2)` yields exactly two
records in insertion order; the repeated `store` action is not merged or
deduplicated. -/
theorem C4_resource_two_records {M : Type} (S1 S2 : OneOrMore M) :
    ResourceMiddleware (Sum.inr ["store", "update"]) S2
        (ResourceMiddleware (Sum.inr ["store"]) S1 none) =
      some [⟨Sum.inr ["store"], S1⟩, ⟨Sum.inr ["store", "update"], S2⟩] :=
  rfl

/-- Claim C5: group annotation is not idempotent: applying
`GroupMiddleware` twice with the same `S` leaves each own non-constructor
method with the two duplicate groups `[S, S]` appended, which differs from
appending `S` once. -/
theorem C5_group_not_idempotent {M : Type} (S : OneOrMore M)
    (proto : List (String × Bool)) (st : Option (Routes M)) (k : String)
    (hnd : (proto.map Prod.fst).Nodup) (hk : (k, true) ∈ proto)
    (hkc : k ≠ "constructor") :
    mwOfSt (GroupMiddleware S proto (GroupMiddleware S proto st)) k =
      mwOfSt st k ++ [S, S] ∧
    mwOfSt (GroupMiddleware S proto (GroupMiddleware S proto st)) k ≠
      mwOfSt st k ++ [S] := by
  have h1 : mwOfSt (GroupMiddleware S proto st) k = mwOfSt st k ++ [S] := by
    unfold mwOfSt GroupMiddleware
    simp only [Option.getD_some]
    exact groupFold_mwOf_target _ _ _ _ hnd hk hkc
  have h2 : mwOfSt (GroupMiddleware S proto (GroupMiddleware S proto st)) k =
      (mwOfSt st k ++ [S]) ++ [S] := by
    have h3 : mwOfSt
        (GroupMiddleware S proto (GroupMiddleware S proto st)) k =
        mwOfSt (GroupMiddleware S proto st) k ++ [S] := by
      unfold mwOfSt GroupMiddleware
      simp only [Option.getD_some]
      exact groupFold_mwOf_target _ _ _ _ hnd hk hkc
    rw [h3, h1]
  constructor
  · rw [h2, List.append_assoc]
    rfl
  · rw [h2]
    intro heq
    have hlen := congrArg List.length heq
    simp at hlen

/-- Witness for C5 at a concrete class with method `index`. -/
theorem C5_witness :
    (([(("constructor" : String), true), ("index", true)].map
        Prod.fst).Nodup ∧
      (("index" : String), true) ∈
        [(("constructor" : String), true), ("index", true)] ∧
      ("index" : String) ≠ "constructor") ∧
    (mwOfSt (GroupMiddleware (Sum.inl (3 : Nat))
        [("constructor", true), ("index", true)]
        (GroupMiddleware (Sum.inl 3)
          [("constructor", true), ("index", true)] none)) "index" =
        mwOfSt (none : Option (Routes Nat)) "index" ++
          [Sum.inl 3, Sum.inl 3] ∧
      mwOfSt (GroupMiddleware (Sum.inl (3 : Nat))
        [("constructor", true), ("index", true)]
        (GroupMiddleware (Sum.inl 3)
          [("constructor", true), ("index", true)] none)) "index" ≠
        mwOfSt (none : Option (Routes Nat)) "index" ++ [Sum.inl 3]) :=
  ⟨⟨by decide, by decide, by decide⟩,
    C5_group_not_idempotent (Sum.inl 3)
      [("constructor", true), ("index", true)] none "index"
      (by decide) (by decide) (by decide)⟩

/-- Claim C6: every annotator operation is append-only and order-preserving
on the metadata store: under each of the three decorators every previously
recorded middleware group of every method stays at its position (the old
list is a prefix of the new one), keys `GroupMiddleware` does not target
and sibling keys of `RouteMiddleware` are untouched, and
`ResourceMiddleware` appends its single new record at the end of the prior
record list. -/
theorem C6_append_only {M : Type} (Sg Sr Sres : OneOrMore M)
    (proto : List (String × Bool)) (key : String) (acts : ActionsArg)
    (st : Option (Routes M)) (rst : Option (List (ResourceRecord M))) :
    (∀ k, mwOfSt st k <+: mwOfSt (GroupMiddleware Sg proto st) k) ∧
    (∀ k, k = "constructor" ∨ (k, true) ∉ proto →
      getPropSt (GroupMiddleware Sg proto st) k = getPropSt st k) ∧
    (∀ k, mwOfSt st k <+: mwOfSt (RouteMiddleware Sr key st) k) ∧
    (∀ k, k ≠ key →
      getPropSt (RouteMiddleware Sr key st) k = getPropSt st k) ∧
    ResourceMiddleware acts Sres rst =
      some (rst.getD [] ++ [⟨acts, Sres⟩]) := by
  refine ⟨?_, ?_, ?_, ?_, rfl⟩
  · intro k
    unfold mwOfSt GroupMiddleware
    simp only [Option.getD_some]
    exact groupFold_mwOf_pref _ _ _ _
  · intro k hk
    unfold getPropSt GroupMiddleware
    simp only [Option.getD_some]
    exact groupFold_getProp_frame _ _ _ _ hk
  · intro k
    unfold mwOfSt RouteMiddleware
    simp only [Option.getD_some]
    exact mwOf_applyMW_pref _ _ _ _
  · intro k hk
    unfold getPropSt RouteMiddleware
    simp only [Option.getD_some]
    exact getProp_applyMW_ne _ _ _ _ hk

/-- Witness for C6 at concrete inputs: one group application over
`{constructor, show}`, one route application at `show`, one resource
record, each starting from a one-entry prior state. -/
theorem C6_witness :
    (mwOfSt (some [("show", some [Sum.inl (9 : Nat)])])
        "show" <+:
      mwOfSt (GroupMiddleware (Sum.inl 1)
        [("constructor", true), ("show", true)]
        (some [("show", some [Sum.inl (9 : Nat)])])) "show") ∧
    ((("edit" : String) = "constructor" ∨
        ((("edit" : String), true) ∉
          [(("constructor" : String), true), ("show", true)])) ∧
      getPropSt (GroupMiddleware (Sum.inl 1)
        [("constructor", true), ("show", true)]
        (some [("show", some [Sum.inl (9 : Nat)])])) "edit" =
      getPropSt (some [("show", some [Sum.inl (9 : Nat)])]) "edit") ∧
    (mwOfSt (some [("show", some [Sum.inl (9 : Nat)])]) "show" <+:
      mwOfSt (RouteMiddleware (Sum.inl 2) "show"
        (some [("show", some [Sum.inl (9 : Nat)])])) "show") ∧
    ((("edit" : String) ≠ "show") ∧
      getPropSt (RouteMiddleware (Sum.inl 2) "show"
        (some [("show", some [Sum.inl (9 : Nat)])])) "edit" =
      getPropSt (some [("show", some [Sum.inl (9 : Nat)])]) "edit") ∧
    ResourceMiddleware (Sum.inl "*") (Sum.inl 3)
        (some [⟨Sum.inr ["store"], Sum.inl (8 : Nat)⟩]) =
      some ([⟨Sum.inr ["store"], Sum.inl 8⟩] ++
        [⟨Sum.inl "*", Sum.inl 3⟩]) := by
  have h := C6_append_only (Sum.inl 1) (Sum.inl 2) (Sum.inl (3 : Nat))
    [("constructor", true), ("show", true)] "show" (Sum.inl "*")
    (some [("show", some [Sum.inl (9 : Nat)])])
    (some [⟨Sum.inr ["store"], Sum.inl (8 : Nat)⟩])
  exact ⟨h.1 "show", ⟨by decide, h.2.1 "edit" (by decide)⟩,
    h.2.2.1 "show", ⟨by decide, h.2.2.2.1 "edit" (by decide)⟩, h.2.2.2.2⟩

/-- Claim C7 counterexample: on a class with zero own non-constructor
methods and no prior metadata, `GroupMiddleware` is not a no-op on the
metadata state: `Reflect.defineMetadata` runs unconditionally, so an empty
routes record comes into existence where none was present before. -/
theorem C7_counterexample :
    GroupMiddleware (Sum.inl (0 : Nat)) [("constructor", true)] none ≠
      (none : Option (Routes Nat)) ∧
    GroupMiddleware (Sum.inl (0 : Nat)) [("constructor", true)] none =
      some [] := by
  constructor
  · intro h
    exact Option.noConfusion h
  · rfl

/-- Claim C7 amended: on a class with zero own non-constructor methods, the
routes content is unchanged (`GroupMiddleware` writes back exactly the
prior content, defaulting to the empty record), but the write-back always
happens, so a metadata record exists afterwards even when none did
before. -/
theorem C7_group_no_methods_writes_back {M : Type} (S : OneOrMore M)
    (proto : List (String × Bool)) (st : Option (Routes M))
    (h : ∀ p ∈ proto, p.1 = "constructor" ∨ p.2 = false) :
    GroupMiddleware S proto st = some (st.getD []) := by
  unfold GroupMiddleware
  rw [groupFold_id _ _ h]

/-- Witness for C7 (amended) at a class with only a constructor and a
non-function own property, starting from a one-entry prior state. -/
theorem C7_witness :
    (∀ p ∈ [(("constructor" : String), true), ("helperValue", false)],
      p.1 = "constructor" ∨ p.2 = false) ∧
    GroupMiddleware (Sum.inl (0 : Nat))
        [("constructor", true), ("helperValue", false)]
        (some [("show", some [Sum.inl 4])]) =
      some [("show", some [Sum.inl 4])] :=
  ⟨by decide,
    C7_group_no_methods_writes_back (Sum.inl 0)
      [("constructor", true), ("helperValue", false)]
      (some [("show", some [Sum.inl 4])]) (by decide)⟩

/-- Claim C8 counterexample: `GroupMiddleware` does not normalize a
single-spec argument to a sequence: the stored group is the bare spec
(`Sum.inl 0`), not a sequence containing it (`Sum.inr [0]`). -/
theorem C8_counterexample :
    mwOfSt (GroupMiddleware (Sum.inl (0 : Nat)) [("show", true)] none)
        "show" = [Sum.inl 0] ∧
    mwOfSt (GroupMiddleware (Sum.inl (0 : Nat)) [("show", true)] none)
        "show" ≠ [Sum.inr [0]] := by
  refine ⟨rfl, ?_⟩
  decide

/-- Claim C8 amended: no normalization takes place: the middleware argument
is stored exactly as passed, so a single-spec argument `Sum.inl s` is
appended as the bare group `Sum.inl s` to each annotated method's
middleware list. -/
theorem C8_group_stores_argument_as_passed {M : Type} (s : M)
    (proto : List (String × Bool)) (st : Option (Routes M)) (k : String)
    (hnd : (proto.map Prod.fst).Nodup) (hk : (k, true) ∈ proto)
    (hkc : k ≠ "constructor") :
    mwOfSt (GroupMiddleware (Sum.inl s) proto st) k =
      mwOfSt st k ++ [Sum.inl s] := by
  unfold mwOfSt GroupMiddleware
  simp only [Option.getD_some]
  exact groupFold_mwOf_target _ _ _ _ hnd hk hkc

/-- Witness for C8 (amended) at a concrete class with method `show`. -/
theorem C8_witness :
    (([(("constructor" : String), true), ("show", true)].map
        Prod.fst).Nodup ∧
      (("show" : String), true) ∈
        [(("constructor" : String), true), ("show", true)] ∧
      ("show" : String) ≠ "constructor") ∧
    mwOfSt (GroupMiddleware (Sum.inl (7 : Nat))
        [("constructor", true), ("show", true)] none) "show" =
      mwOfSt (none : Option (Routes Nat)) "show" ++ [Sum.inl 7] :=
  ⟨⟨by decide, by decide, by decide⟩,
    C8_group_stores_argument_as_passed 7
      [("constructor", true), ("show", true)] none "show"
      (by decide) (by decide) (by decide)⟩

/-- Claim C9: `ResourceMiddleware` succeeds on every actions argument
(including unknown or misspelled action names, which are not validated):
it always returns the prior list with one record appended whose `actions`
field is exactly the value passed. -/
theorem C9_resource_no_validation {M : Type} (acts : ActionsArg)
    (S : OneOrMore M) (st : Option (List (ResourceRecord M))) :
    ResourceMiddleware acts S st = some (st.getD [] ++ [⟨acts, S⟩]) ∧
    (st.getD [] ++ [(⟨acts, S⟩ : ResourceRecord M)]).getLast? =
      some (⟨acts, S⟩ : ResourceRecord M) := by
  exact ⟨rfl, List.getLast?_concat _⟩

/-- Claim C10: `GroupMiddleware` only touches own prototype properties that
are functions: any key that is the constructor, an own non-function
property, or absent from the own-property list (e.g. an inherited method)
keeps its metadata entry exactly as before. -/
theorem C10_group_only_own_function_props {M : Type} (S : OneOrMore M)
    (proto : List (String × Bool)) (st : Option (Routes M)) (k : String)
    (h : k = "constructor" ∨ (k, true) ∉ proto) :
    getPropSt (GroupMiddleware S proto st) k = getPropSt st k := by
  unfold getPropSt GroupMiddleware
  simp only [Option.getD_some]
  exact groupFold_getProp_frame _ _ _ _ h

/-- Witness for C10 at the own non-function property `helperValue` of a
class that also has the function property `show`. -/
theorem C10_witness :
    ((("helperValue" : String) = "constructor" ∨
        ((("helperValue" : String), true) ∉
          [(("constructor" : String), true), ("show", true),
            ("helperValue", false)])) ∧
      getPropSt (GroupMiddleware (Sum.inl (0 : Nat))
        [("constructor", true), ("show", true), ("helperValue", false)]
        none) "helperValue" =
      getPropSt (none : Option (Routes Nat)) "helperValue") :=
  ⟨by decide,
    C10_group_only_own_function_props (Sum.inl 0)
      [("constructor", true), ("show", true), ("helperValue", false)]
      none "helperValue" (by decide)⟩

end Girouette
